import Mathlib

/-!
# Verification of the maya-code orchestration core

Shallow embedding, in Lean 4, of the process-orchestration and autonomous
scheduling engine of the maya-code repository:

* the response-directive extractor and its delay parser
  (`src/backends/response-tags.ts`, `src/claude/process.ts`),
* the two stream-event accumulators
  (`src/backends/claude/parser.ts`, `src/backends/codex/parser.ts`),
* the subprocess exit handler (`src/backends/claude/process.ts`,
  `src/backends/codex/process.ts`),
* the per-context run queue and dispatch resolution
  (`src/backends/manager.ts`),
* the rate-limit detection of the heartbeat scheduler, reset-time parsing and
  tick rescheduling (`src/heartbeat/scheduler.ts`).

JavaScript strings are modelled as `List Char`, numbers as `Nat`/`Int`/`Rat`
as appropriate, `null`/`undefined` as `Option`, and promise rejection as
`Except`.  Regular-expression scans from the source are implemented as
explicit left-to-right matchers that reproduce the(JS) backtracking
behaviour of the concrete patterns involved.
-/

namespace Maya

/-! ## String helpers (JS `trim`, `toLowerCase`, substring search) -/

/-- JS `String.prototype.trim` start side: drop leading whitespace. -/
def trimLeft (cs : List Char) : List Char := cs.dropWhile Char.isWhitespace

/-- JS `String.prototype.trim`: drop whitespace from both ends. -/
def trimChars (cs : List Char) : List Char :=
  ((trimLeft cs.reverse)).reverse.dropWhile Char.isWhitespace

/-- JS `String.prototype.toLowerCase` (ASCII fragment, which is all the
patterns of the source use). -/
def lowerChars (cs : List Char) : List Char := cs.map Char.toLower

/-- Whether `pat` occurs as a contiguous substring of `cs`
(JS `RegExp.test` for a literal pattern). -/
def containsSub : List Char → List Char → Bool
  | [], pat => pat.isEmpty
  | c :: rest, pat => pat.isPrefixOf (c :: rest) || containsSub rest pat

/-- Numeric value of a digit run (JS `parseInt` on an all-digit string). -/
def digitsToNat (ds : List Char) : Nat :=
  ds.foldl (fun acc c => acc * 10 + (c.toNat - '0'.toNat)) 0

/-! ## Delay parser

Translation of `parseDelay` (`src/backends/response-tags.ts`, identical in
`src/claude/process.ts`):

```
const regex = /(\d+)\s*(h|hr|hrs|hours?|m|min|mins|minutes?|s|sec|secs|seconds?)/g;
while ((match = regex.exec(str)) !== null) { ... unit = match[2][0] ... }
if (!matched && /^\d+$/.test(str)) { totalMs = parseInt(str) * 60 * 1000; ... }
return matched && totalMs > 0 ? totalMs : null;
```

Because the alternation lists the one-letter units first, a match always
consumes exactly one unit letter (`h`, `m` or `s`); the scan resumes after
it.  An attempt that fails (digit run not followed by optional whitespace
and a unit letter) advances the search by one character, like the JS
engine advancing the start offset. -/

def isUnitChar (c : Char) : Bool := c = 'h' || c = 'm' || c = 's'

def unitMs (c : Char) : Nat :=
  if c = 'h' then 60 * 60 * 1000 else if c = 'm' then 60 * 1000 else 1000

/-- One global scan of the duration regex, structurally recursive on a
fuel argument (each step consumes at least one character, so fuel equal to
the input length is never exhausted): total milliseconds matched and
whether any `<number><unit>` token matched. -/
def delayScanF : Nat → List Char → Nat × Bool
  | 0, _ => (0, false)
  | _ + 1, [] => (0, false)
  | fuel + 1, c :: rest =>
    if c.isDigit then
      let ds := c :: rest.takeWhile Char.isDigit
      let afterWs := (rest.dropWhile Char.isDigit).dropWhile Char.isWhitespace
      match afterWs with
      | u :: rest2 =>
        if isUnitChar u then
          let p := delayScanF fuel rest2
          (digitsToNat ds * unitMs u + p.1, true)
        else delayScanF fuel rest
      | [] => delayScanF fuel rest
    else delayScanF fuel rest

def delayScan (cs : List Char) : Nat × Bool := delayScanF cs.length cs

/-- Body of `parseDelay` on character lists. -/
def parseDelayL (cs : List Char) : Option Nat :=
  let str := lowerChars (trimChars cs)
  let p := delayScan str
  let p := if !p.2 && str ≠ [] && str.all Char.isDigit
           then (digitsToNat str * 60 * 1000, true) else p
  if p.2 && p.1 > 0 then some p.1 else none

/-- Translation of `parseDelay` (`src/backends/response-tags.ts`): parse a duration string
like `"30m"`, `"2h"`, `"1h30m"`, `"90s"`, or a bare number of minutes, into
milliseconds; `none` for unparseable or zero totals. -/
def parseDelay (s : String) : Option Nat := parseDelayL s.data

/-! ## Response-directive extractor

Translation of `extractResponseTags` (`src/backends/response-tags.ts`,
identical in `src/claude/process.ts`).  The four global `String.replace`
passes run in order on the successively rewritten text:

1. `/\[CALLBACK:\s*([^:]+?):\s*(.+?)\]/g` — scheduled callbacks,
2. `/\[UPLOAD:\s*(.+?)\]/g` — upload tags,
3. `/!\[([^\]]*)\]\((?!https?:\/\/)([^)]+)\)/g` — markdown images with a
   non-URL target (replaced by `*alt*` when alt text is present),
4. `/!\[\[([^\]]+)\]\]/g` — Obsidian-style embeds.

Each pattern is implemented as an anchored matcher (`match…At`) plus a
left-to-right scanner that advances one character on failure and resumes
after the match on success, which is exactly the JS `replace` traversal
for these patterns. -/

/-- A scheduled callback directive: delay in milliseconds and prompt
(`ScheduledCallback` in `src/backends/types.ts`). -/
structure ScheduledCallback where
  delayMs : Nat
  prompt : String
deriving DecidableEq, Repr

/-- Literal prefix: consume `pat` or fail. -/
def matchLit (pat l : List Char) : Option (List Char) :=
  if pat.isPrefixOf l then some (l.drop pat.length) else none

/-- Lazy `([^:]+?):` — the shortest nonempty run of non-colon characters
followed by a colon (the first colon at index ≥ 1); returns the captured
run and the characters after the colon. -/
def lazyUntilColon : List Char → Option (List Char × List Char)
  | [] => none
  | [_] => none
  | c :: rest =>
    if c = ':' then none
    else match rest with
      | ':' :: rest2 => some ([c], rest2)
      | _ => (lazyUntilColon rest).map (fun r => (c :: r.1, r.2))

/-- Lazy `(.+?)\]` — the shortest nonempty run of non-newline characters
followed by `]` (the first `]` at index ≥ 1, with no newline before it);
returns the captured run and the characters after the `]`. -/
def lazyUntilRB : List Char → Option (List Char × List Char)
  | [] => none
  | [_] => none
  | c :: rest =>
    if c = '\n' then none
    else match rest with
      | ']' :: rest2 => some ([c], rest2)
      | _ => (lazyUntilRB rest).map (fun r => (c :: r.1, r.2))

/-- Greedy `\s*` followed by a lazy capture: try consuming the maximal
whitespace run first, backtracking one whitespace character at a time,
exactly as the JS engine does for `\s*([^:]+?):` and `\s*(.+?)\]`. -/
def wsBacktrackGo (inner : List Char → Option (List Char × List Char))
    (l : List Char) : Nat → Option (List Char × List Char)
  | 0 => inner l
  | w + 1 =>
    match inner (l.drop (w + 1)) with
    | some r => some r
    | none => wsBacktrackGo inner l w

def wsBacktrack (inner : List Char → Option (List Char × List Char))
    (l : List Char) : Option (List Char × List Char) :=
  wsBacktrackGo inner l (l.takeWhile Char.isWhitespace).length

/-- Anchored match of `\[CALLBACK:\s*([^:]+?):\s*(.+?)\]`, capturing
(delay string, prompt) and returning the text after the match. -/
def matchCallbackAt (l : List Char) : Option ((List Char × List Char) × List Char) :=
  match matchLit "[CALLBACK:".data l with
  | none => none
  | some after =>
    match wsBacktrack lazyUntilColon after with
    | none => none
    | some (d, after2) =>
      match wsBacktrack lazyUntilRB after2 with
      | none => none
      | some (p, post) => some ((d, p), post)

/-- Anchored match of `\[UPLOAD:\s*(.+?)\]`, capturing the path. -/
def matchUploadAt (l : List Char) : Option (List Char × List Char) :=
  match matchLit "[UPLOAD:".data l with
  | none => none
  | some after => wsBacktrack lazyUntilRB after

/-- Anchored match of `!\[([^\]]*)\]\((?!https?:\/\/)([^)]+)\)`,
capturing (alt text, path). -/
def matchMdImageAt (l : List Char) : Option ((List Char × List Char) × List Char) :=
  match matchLit "![".data l with
  | none => none
  | some after =>
    let alt := after.takeWhile (fun c => c ≠ ']')
    match after.dropWhile (fun c => c ≠ ']') with
    | ']' :: '(' :: rest2 =>
      if "http://".data.isPrefixOf rest2 || "https://".data.isPrefixOf rest2 then
        none
      else
        let path := rest2.takeWhile (fun c => c ≠ ')')
        match path, rest2.dropWhile (fun c => c ≠ ')') with
        | _ :: _, ')' :: post => some ((alt, path), post)
        | _, _ => none
    | _ => none

/-- Anchored match of `!\[\[([^\]]+)\]\]`, capturing the path. -/
def matchObsidianAt (l : List Char) : Option (List Char × List Char) :=
  match matchLit "![[".data l with
  | none => none
  | some after =>
    let path := after.takeWhile (fun c => c ≠ ']')
    match path, after.dropWhile (fun c => c ≠ ']') with
    | _ :: _, ']' :: ']' :: post => some (path, post)
    | _, _ => none

/-- Global-replace scanner: walk the text left to right; on an anchored
match emit the replacement and continue after the match, otherwise keep
the character and move on.  Returns the rewritten text and the captures in
match order.  Structurally recursive on fuel; every match consumes at
least two characters, so fuel equal to the input length never runs out. -/
def scanF (matchAt : List Char → Option (α × List Char)) (repl : α → List Char) :
    Nat → List Char → List Char × List α
  | 0, l => (l, [])
  | _ + 1, [] => ([], [])
  | fuel + 1, c :: rest =>
    match matchAt (c :: rest) with
    | some (cap, post) =>
      let r := scanF matchAt repl fuel post
      (repl cap ++ r.1, cap :: r.2)
    | none =>
      let r := scanF matchAt repl fuel rest
      (c :: r.1, r.2)

def runScan (matchAt : List Char → Option (α × List Char)) (repl : α → List Char)
    (l : List Char) : List Char × List α :=
  scanF matchAt repl l.length l

/-- Replacement for a markdown image: the alt text wrapped in asterisks
when present, empty otherwise. -/
def mdImageRepl (cap : List Char × List Char) : List Char :=
  if cap.1 = [] then [] else '*' :: (cap.1 ++ ['*'])

def emptyRepl {α : Type} (_ : α) : List Char := []

/-- The four passes, on character lists: returns
(clean text, upload paths, callbacks). -/
def extractL (text : List Char) :
    List Char × List (List Char) × List ScheduledCallback :=
  let r1 := runScan matchCallbackAt emptyRepl text
  let callbacks := r1.2.filterMap fun cap =>
    match parseDelayL cap.1 with
    | some ms => some ⟨ms, String.mk (trimChars cap.2)⟩
    | none => none
  let r2 := runScan matchUploadAt emptyRepl r1.1
  let r3 := runScan matchMdImageAt mdImageRepl r2.1
  let r4 := runScan matchObsidianAt emptyRepl r3.1
  let uploadFiles := r2.2 ++ r3.2.map (fun c => c.2) ++ r4.2
  (trimChars r4.1, uploadFiles, callbacks)

/-- Translation of `extractResponseTags` (`src/backends/response-tags.ts`): extract
callback, upload and image directives from response text, returning the
cleaned text, trimmed upload paths, and scheduled callbacks. -/
def extractResponseTags (text : String) :
    String × List String × List ScheduledCallback :=
  let r := extractL text.data
  (String.mk r.1, r.2.1.map (fun p => String.mk (trimChars p)), r.2.2)

/-! ## Protocol A stream accumulator

Translation of `StreamAccumulator` (`src/backends/claude/parser.ts`):
events are a discriminated union with a `system` init event, `assistant`
events carrying a content array of text / tool-use blocks, and a final
`result` event carrying duration / cost / session id / error flag.
Optional JSON fields are `Option`; JS truthiness tests on strings are
modelled as `≠ ""`. -/

/-- The payload of a protocol A `result` event (`ResultEvent`). -/
structure ResultEventA where
  is_error : Bool
  duration_ms : Int
  total_cost_usd : Rat
  result : String
  session_id : String
deriving DecidableEq, Repr

/-- One block of the content array of an `assistant` event. -/
inductive ContentBlockA
  | text (t : String)
  | toolUse (name : String) (filePath : Option String)
  | otherBlock
deriving DecidableEq, Repr

/-- Protocol A stream events (`StreamEvent`). -/
inductive EventA
  | system (session_id : String)
  | assistant (content : List ContentBlockA)
  | result (r : ResultEventA)
  | otherEvent
deriving DecidableEq, Repr

/-- Protocol A accumulator state (`StreamAccumulator`). -/
structure AccumA where
  text : String := ""
  result : Option ResultEventA := none
  error : Option String := none
  createdFiles : List String := []
  sessionId : Option String := none
deriving DecidableEq, Repr

def initA : AccumA := {}

/-- One content block of an assistant event (the body of the `for` loop in
the `assistant` case of `processEvent`). -/
def processBlockA (st : AccumA) : ContentBlockA → AccumA
  | .text t => { st with text := t }
  | .toolUse name fp =>
    if name = "Write" ∨ name = "Edit" then
      match fp with
      | some f =>
        if f ≠ "" ∧ f ∉ st.createdFiles then
          { st with createdFiles := st.createdFiles ++ [f] }
        else st
      | none => st
    else st
  | .otherBlock => st

/-- Translation of `StreamAccumulator.processEvent` for protocol A. -/
def processEventA (st : AccumA) : EventA → AccumA
  | .system sid => { st with sessionId := some sid }
  | .assistant content => content.foldl processBlockA st
  | .result r =>
    let st := { st with result := some r }
    let st := if r.result ≠ "" then { st with text := r.result } else st
    if r.is_error then { st with error := some r.result } else st
  | .otherEvent => st

/-! ## Protocol B stream accumulator

Translation of `CodexStreamAccumulator` (`src/backends/codex/parser.ts`):
thread-lifecycle events, incremental `item.*` events carrying agent-message
text or file-modification metadata, and turn-completed/failed events
carrying token usage or an error payload. -/

inductive ItemPhase | started | updated | completed
deriving DecidableEq, Repr

structure UsageB where
  input_tokens : Option Int
  output_tokens : Option Int
deriving DecidableEq, Repr

/-- Protocol B stream events (`CodexStreamEvent`). -/
inductive EventB
  | threadStarted (thread_id : String)
  | turnStarted
  | turnCompleted (usage : Option UsageB)
  | turnFailed (error : Option String)
  | item (phase : ItemPhase) (itemType : String) (text : Option String)
      (filePath : Option String)
  | errorEvent (message : Option String)
  | otherEvent
deriving DecidableEq, Repr

/-- Protocol B accumulator state (`CodexStreamAccumulator`). -/
structure AccumB where
  text : String := ""
  threadId : Option String := none
  error : Option String := none
  createdFiles : List String := []
  inputTokens : Int := 0
  outputTokens : Int := 0
deriving DecidableEq, Repr

def initB : AccumB := {}

/-- Translation of `CodexStreamAccumulator.processEvent`. -/
def processEventB (st : AccumB) : EventB → AccumB
  | .threadStarted tid => { st with threadId := some tid }
  | .item phase ty txt fp =>
    if phase = .completed ∨ phase = .updated then
      let st :=
        match txt with
        | some t => if ty = "agent_message" ∧ t ≠ "" then { st with text := t } else st
        | none => st
      match fp with
      | some f =>
        if f ≠ "" ∧ f ∉ st.createdFiles then
          { st with createdFiles := st.createdFiles ++ [f] }
        else st
      | none => st
    else st
  | .turnCompleted usage =>
    match usage with
    | some u =>
      { st with inputTokens := st.inputTokens + u.input_tokens.getD 0,
                outputTokens := st.outputTokens + u.output_tokens.getD 0 }
    | none => st
  | .turnFailed err =>
    match err with
    | some e => if e ≠ "" then { st with error := some e } else st
    | none => st
  | .errorEvent msg =>
    match msg with
    | some m => { st with error := some (if m = "" then "Unknown Codex error" else m) }
    | none => st
  | .turnStarted => st
  | .otherEvent => st

/-! ### File-path tracking specification (for the dedup invariant) -/

/-- The file path a protocol A content block contributes to the tracked
file list (a write/edit tool use with a truthy `file_path`). -/
def blockFileA : ContentBlockA → Option String
  | .toolUse name (some f) =>
    if (name = "Write" ∨ name = "Edit") ∧ f ≠ "" then some f else none
  | _ => none

/-- The latest-text value a protocol A content block installs, if any. -/
def blockTextA : ContentBlockA → Option String
  | .text t => some t
  | _ => none

/-- File paths observed in write/edit-type tool invocations of a protocol A
event stream, in stream order, duplicates included. -/
def observedFilesA (events : List EventA) : List String :=
  events.flatMap fun e =>
    match e with
    | .assistant content => content.filterMap blockFileA
    | _ => []

/-- The file path a protocol B event contributes to the tracked file list
(a completed/updated item with a truthy `file_path`). -/
def itemFileB : EventB → Option String
  | .item phase _ _ (some f) =>
    if (phase = .completed ∨ phase = .updated) ∧ f ≠ "" then some f else none
  | _ => none

/-- File paths observed in file-modification item events of a protocol B
event stream, in stream order, duplicates included. -/
def observedFilesB (events : List EventB) : List String :=
  events.filterMap itemFileB

/-- Append a path unless already present. -/
def insertFirstSeen (acc : List String) (p : String) : List String :=
  if p ∈ acc then acc else acc ++ [p]

/-- Deduplicate a path stream keeping the first occurrence of each path,
in first-seen order.  This is the specification against which the created-
files lists of the accumulators are compared. -/
def firstSeenOrder (ps : List String) : List String :=
  ps.foldl insertFirstSeen []

/-! ## Subprocess exit handling

Translation of the `close` handlers of `ClaudeProcess.run`
(`src/backends/claude/process.ts`, identical in `src/claude/process.ts`)
and `CodexProcess.run` (`src/backends/codex/process.ts`).  Promise
resolution is `.ok`, rejection is `.error`. -/

/-- The structured result of a run (`BackendProcessResult`). -/
structure RunResultR where
  text : String
  durationMs : Int
  costUsd : Rat
  isError : Bool
  sessionId : String
  createdFiles : List String
  imageFiles : List String
  uploadFiles : List String
  callbacks : List ScheduledCallback
deriving DecidableEq, Repr

/-- JS truthiness of a nullable string (`null`/`""` are falsy). -/
def strTruthy : Option String → Bool
  | some s => s ≠ ""
  | none => false

/-- JS `x || y` on a nullable string. -/
def jsOrStr (x : Option String) (y : String) : String :=
  match x with
  | some s => if s ≠ "" then s else y
  | none => y

/-- The `close` handler of `ClaudeProcess.run`: `error` is the
terminal error of the accumulator, `result` its final result event, `accText`
its accumulated text, `code` the subprocess exit code. -/
def closeClaude (optSessionId : String) (error : Option String)
    (result : Option ResultEventA) (accText : String) (code : Int)
    (createdFiles imageFiles : List String) : Except String RunResultR :=
  if strTruthy error then
    .ok { text := error.getD ""
          durationMs := (result.map (·.duration_ms)).getD 0
          costUsd := (result.map (·.total_cost_usd)).getD 0
          isError := true
          sessionId := optSessionId
          createdFiles := createdFiles
          imageFiles := imageFiles
          uploadFiles := []
          callbacks := [] }
  else if code ≠ 0 ∧ accText = "" then
    .error ("Claude CLI exited with code " ++ toString code)
  else
    let e := extractResponseTags accText
    .ok { text := e.1
          durationMs := (result.map (·.duration_ms)).getD 0
          costUsd := (result.map (·.total_cost_usd)).getD 0
          isError := (result.map (·.is_error)).getD false
          sessionId := jsOrStr (result.map (·.session_id)) optSessionId
          createdFiles := createdFiles
          imageFiles := imageFiles
          uploadFiles := e.2.1
          callbacks := e.2.2 }

/-- The `close` handler of `CodexProcess.run` (no duration/cost reporting;
the session id is the observed thread id when present). -/
def closeCodex (optSessionId : String) (error : Option String)
    (threadId : Option String) (accText : String) (code : Int)
    (createdFiles imageFiles : List String) : Except String RunResultR :=
  if strTruthy error then
    .ok { text := error.getD ""
          durationMs := 0
          costUsd := 0
          isError := true
          sessionId := jsOrStr threadId optSessionId
          createdFiles := createdFiles
          imageFiles := imageFiles
          uploadFiles := []
          callbacks := [] }
  else if code ≠ 0 ∧ accText = "" then
    .error ("Codex CLI exited with code " ++ toString code)
  else
    let e := extractResponseTags accText
    .ok { text := e.1
          durationMs := 0
          costUsd := 0
          isError := false
          sessionId := jsOrStr threadId optSessionId
          createdFiles := createdFiles
          imageFiles := imageFiles
          uploadFiles := e.2.1
          callbacks := e.2.2 }

/-! ## Run orchestrator: dispatch resolution and store update

Translation of `runBackendImmediate` (`src/backends/manager.ts`, the
session/continuation resolution is identical in `src/claude/manager.ts`).
The persisted session store itself (`src/storage/sessions.ts`) is not part
of the repository snapshot; its data shape and the result-application
semantics are modelled from the spec. -/

/-- Heartbeat configuration, part of the persisted context
(spec §3 `HeartbeatConfig`). -/
structure HeartbeatConfig where
  enabled : Bool
  intervalMs : Int
  prompt : String
deriving DecidableEq, Repr

/-- Modelled from the spec: the persisted per-context snapshot produced by
the missing `src/storage/sessions.ts` — §6 "a mapping from context key to
`{sessionId, messageCount, totalCostUsd, model?, planMode?, heartbeat?}`". -/
structure SessionData where
  sessionId : String
  messageCount : Nat
  totalCostUsd : Rat
  model : Option String := none
  planMode : Bool := false
  heartbeat : Option HeartbeatConfig := none
deriving DecidableEq, Repr

/-- Modelled from the spec: `incrementMessageCount` of the missing
`src/storage/sessions.ts` — section 4.1, on completion the orchestrator
updates the message count of the Context. -/
def incrementMessageCount (s : SessionData) : SessionData :=
  { s with messageCount := s.messageCount + 1 }

/-- Modelled from the spec: `addCost` of the missing
`src/storage/sessions.ts` — section 4.1, on completion the orchestrator updates the
accumulated cost of the Context. -/
def addCost (s : SessionData) (c : Rat) : SessionData :=
  { s with totalCostUsd := s.totalCostUsd + c }

/-- Session-id / continuation resolution of `runBackendImmediate`:

```
const heartbeatSessionId = isHeartbeat ? uuidv4() : null;
const sessionId = heartbeatSessionId || session.sessionId;
const shouldContinue = isHeartbeat ? false : (continueSession || session.messageCount > 0);
```

`freshId` stands for the `uuidv4()` value drawn for this call. -/
def resolveDispatch (session : SessionData) (continueSession isHeartbeat : Bool)
    (freshId : String) : String × Bool :=
  let heartbeatSessionId : Option String := if isHeartbeat then some freshId else none
  (jsOrStr heartbeatSessionId session.sessionId,
   if isHeartbeat then false else continueSession || decide (session.messageCount > 0))

/-- The post-run store update of `runBackendImmediate`:

```
const result = await proc.run();
await incrementMessageCount(channelId, threadId);
if (result.costUsd > 0) { await addCost(channelId, threadId, result.costUsd); }
```

A rejected run skips both updates (the `try` block is exited). -/
def applyRunOutcome (s : SessionData) (outcome : Except String RunResultR) : SessionData :=
  match outcome with
  | .error _ => s
  | .ok r =>
    let s := incrementMessageCount s
    if r.costUsd > 0 then addCost s r.costUsd else s

/-! ## Per-context run queue

Model of `runClaude` (`src/backends/manager.ts`):

```
const pending = processQueues.get(processKey) || Promise.resolve();
const next = pending.then(() => runBackendImmediate(options)).catch(...);
processQueues.set(processKey, next.catch(() => {}));
```

Each context key owns a promise chain, i.e. a FIFO of queued requests with
at most one dispatched (in-flight) run; a new dispatch can only start once
the previous run for the same key has settled, and because the stored
chain is the failure-swallowing `next.catch(() => {})`, settling is
enabled regardless of whether the run fulfilled or rejected.  The model is
a labelled transition system over all context keys; `submit` is `runClaude`
appending to the chain, `start` is a queued dispatch beginning, `finish`
is the run settling with outcome `ok`. -/

section Queue

variable {K R : Type} [DecidableEq K] [DecidableEq R]

/-- Queue transitions. -/
inductive QAct (K R : Type)
  | submit (k : K) (r : R)
  | start (k : K) (r : R)
  | finish (k : K) (ok : Bool)
deriving DecidableEq

/-- The key an action belongs to. -/
def QAct.key : QAct K R → K
  | .submit k _ => k
  | .start k _ => k
  | .finish k _ => k

/-- Per-key chains: queued continuations plus the in-flight run. -/
structure QState (K R : Type) where
  queued : K → List R
  inflight : K → Option R

def qInit : QState K R := ⟨fun _ => [], fun _ => none⟩

/-- One transition; `none` when the action is not enabled. -/
def qApply (st : QState K R) : QAct K R → Option (QState K R)
  | .submit k r =>
    some { st with queued := Function.update st.queued k (st.queued k ++ [r]) }
  | .start k r =>
    match st.inflight k, st.queued k with
    | none, r' :: rest =>
      if r' = r then
        some { queued := Function.update st.queued k rest,
               inflight := Function.update st.inflight k (some r) }
      else none
    | _, _ => none
  | .finish k _ok =>
    match st.inflight k with
    | some _ => some { st with inflight := Function.update st.inflight k none }
    | none => none

/-- Run a whole action trace from a state. -/
def qRun (st : QState K R) : List (QAct K R) → Option (QState K R)
  | [] => some st
  | a :: rest =>
    match qApply st a with
    | some st' => qRun st' rest
    | none => none

/-- Requests submitted for key `k`, in trace order. -/
def submitsOf (k : K) (tr : List (QAct K R)) : List R :=
  tr.filterMap fun a =>
    match a with
    | .submit k' r => if k' = k then some r else none
    | _ => none

/-- Requests whose dispatch started for key `k`, in trace order. -/
def startsOf (k : K) (tr : List (QAct K R)) : List R :=
  tr.filterMap fun a =>
    match a with
    | .start k' r => if k' = k then some r else none
    | _ => none

end Queue

/-! ## Heartbeat scheduler

Translation of `src/heartbeat/scheduler.ts`: the rate-limit signature
test, the `"resets <time> (<timezone>)"` hint parser, and the timer
decisions a `tick` makes. -/

/-- Translation of `RATE_LIMIT_PATTERNS`.  All seven regexes are literal substring tests
(six case-insensitive, `/429/` case-sensitive but digits are unaffected by
lowercasing). -/
def RATE_LIMIT_PATTERNS : List (List Char) :=
  ["rate limit".data, "overloaded".data, "too many requests".data,
   "429".data, "capacity".data, "quota".data, "hit your limit".data]

/-- Translation of `isRateLimitError`: whether any rate-limit pattern matches the text. -/
def isRateLimitError (text : String) : Bool :=
  RATE_LIMIT_PATTERNS.any fun p => containsSub (lowerChars text.data) p

/-! ### Reset-hint parsing

`parseResetTime` matches
`/resets\s+(\d{1,2}(?::\d{2})?\s*(?:am|pm))\s*\(([^)]+)\)/i` and then
re-parses the captured time with `/(\d{1,2})(?::(\d{2}))?\s*(am|pm)/i`,
which on the captured shape recovers exactly the components consumed by
the outer match; the matcher below produces those components directly.
The `\d{1,2}` quantifier is greedy with backtracking (two digits first,
then one), and the optional `(?::\d{2})` group is tried before being
skipped, as in the JS engine. -/

/-- Case-insensitive literal prefix. -/
def ciPrefix (pat l : List Char) : Option (List Char) :=
  if lowerChars (l.take pat.length) = pat then some (l.drop pat.length) else none

/-- Matcher for `(am|pm)` (case-insensitive); returns `true` for pm. -/
def matchAmPm : List Char → Option (Bool × List Char)
  | a :: m :: rest =>
    if a.toLower = 'a' && m.toLower = 'm' then some (false, rest)
    else if a.toLower = 'p' && m.toLower = 'm' then some (true, rest)
    else none
  | _ => none

/-- Matcher for `(?::\d{2})?\s*(am|pm)` after the hour digits: try the optional
minutes group first, then without it. -/
def timeTail (hours : Nat) (l : List Char) : Option (Nat × Nat × Bool × List Char) :=
  (match l with
   | ':' :: d1 :: d2 :: rest =>
     if d1.isDigit && d2.isDigit then
       match matchAmPm (rest.dropWhile Char.isWhitespace) with
       | some (pm, rest2) => some (hours, digitsToNat [d1, d2], pm, rest2)
       | none => none
     else none
   | _ => none)
  <|>
  (match matchAmPm (l.dropWhile Char.isWhitespace) with
   | some (pm, rest2) => some (hours, 0, pm, rest2)
   | none => none)

/-- Matcher for `(\d{1,2})(?::\d{2})?\s*(am|pm)`: greedy two digits, backtracking to
one. -/
def matchTimeAt : List Char → Option (Nat × Nat × Bool × List Char)
  | d1 :: rest =>
    if d1.isDigit then
      (match rest with
       | d2 :: rest2 =>
         if d2.isDigit then timeTail (digitsToNat [d1, d2]) rest2 else none
       | [] => none)
      <|> timeTail (digitsToNat [d1]) rest
    else none
  | [] => none

/-- Matcher for `\s*\(([^)]+)\)`: the parenthesised timezone capture. -/
def matchTzAt (l : List Char) : Option (List Char × List Char) :=
  match l.dropWhile Char.isWhitespace with
  | '(' :: rest =>
    let tz := rest.takeWhile (fun c => c ≠ ')')
    match tz, rest.dropWhile (fun c => c ≠ ')') with
    | _ :: _, ')' :: post => some (tz, post)
    | _, _ => none
  | _ => none

/-- Anchored match of the whole reset-hint pattern, producing
(12-hour value, minutes, is-pm, timezone). -/
def matchResetAt (l : List Char) : Option (Nat × Nat × Bool × List Char) :=
  match ciPrefix "resets".data l with
  | none => none
  | some after =>
    if after.takeWhile Char.isWhitespace = [] then none
    else
      match matchTimeAt (after.dropWhile Char.isWhitespace) with
      | none => none
      | some (h, m, pm, rest) =>
        match matchTzAt rest with
        | none => none
        | some (tz, _post) => some (h, m, pm, tz)

/-- Leftmost search for the reset-hint pattern. -/
def findReset : Nat → List Char → Option (Nat × Nat × Bool × List Char)
  | 0, _ => none
  | _ + 1, [] => none
  | fuel + 1, c :: rest =>
    match matchResetAt (c :: rest) with
    | some r => some r
    | none => findReset fuel rest

/-- The wall-clock environment `parseResetTime` consults through the
JS `Date` API.  `todayInTz`/`nowInTzMs` are `none` when the timezone
string is invalid (the locale calls throw, caught as a `null` return). -/
structure TimeEnv where
  /-- Value of `Date.now()` at the moment of the tick, epoch milliseconds. -/
  nowMs : Int
  /-- Result of the locale date-string call for the timezone, split into
  (year, month, day). -/
  todayInTz : String → Option (Nat × Nat × Nat)
  /-- Server-local epoch of the given wall-clock components, as computed
  by the `Date` constructor on the assembled date string. -/
  localEpochMs : Nat × Nat × Nat → Nat → Nat → Int
  /-- epoch of the current instant as re-parsed through the timezone view. -/
  nowInTzMs : String → Option Int

/-- The pre-buffer delay computed by `parseResetTime`: the wall-clock gap
from now to the parsed reset time (wrapped forward by 24h if negative). -/
def resetDelayRaw (env : TimeEnv) (text : String) : Option Int :=
  match findReset text.data.length text.data with
  | none => none
  | some (h12, minutes, isPm, tz) =>
    let tzs := String.mk tz
    match env.todayInTz tzs, env.nowInTzMs tzs with
    | some ymd, some nowTz =>
      let hours := if isPm && h12 ≠ 12 then h12 + 12
                   else if !isPm && h12 = 12 then 0 else h12
      let resetLocal := env.localEpochMs ymd hours minutes
      let offsetMs := env.nowMs - nowTz
      let resetUtc := resetLocal + offsetMs
      let delay0 := resetUtc - env.nowMs
      some (if delay0 < 0 then delay0 + 24 * 60 * 60 * 1000 else delay0)
    | _, _ => none

/-- Translation of `parseResetTime`: the raw gap plus the fixed 2-minute buffer, or
`none` when no hint parses. -/
def parseResetTimeE (env : TimeEnv) (text : String) : Option Int :=
  (resetDelayRaw env text).map (· + 2 * 60 * 1000)

/-! ### Tick decisions -/

/-- What the awaited `runClaude` call inside a tick did. -/
inductive RunOutcome
  | success (r : RunResultR)
  | thrown (msg : String)

/-- The timer-table calls a tick can make: `activeTimers.delete` on the
disabled path, `scheduleTick` with some delay otherwise. -/
inductive TimerAction
  | delete
  | schedule (delayMs : Int)
deriving DecidableEq, Repr

/-- JS `if (delayMs)` on the nullable parse result (`0` is falsy). -/
def truthyDelay : Option Int → Option Int
  | some d => if d = 0 then none else some d
  | none => none

/-- The sequence of timer-table calls made by one execution of `tick`
(`src/heartbeat/scheduler.ts`), in source order:

* heartbeat no longer enabled → `activeTimers.delete`, no reschedule;
* no prompt configured / channel unavailable → reschedule `intervalMs`;
* rate-limited error result or rate-limited thrown error → reschedule for
  the parsed reset delay if truthy, else `intervalMs * 2`;
* any other outcome (including a caught non-rate-limit exception) → fall
  through to the final `scheduleTick(…, intervalMs)`. -/
def tickActions (env : TimeEnv) (session : Option SessionData) (channelOk : Bool)
    (intervalMs : Int) (outcome : RunOutcome) : List TimerAction :=
  match session with
  | none => [.delete]
  | some s =>
    match s.heartbeat with
    | none => [.delete]
    | some hb =>
      if !hb.enabled then [.delete]
      else if hb.prompt = "" then [.schedule intervalMs]
      else if !channelOk then [.schedule intervalMs]
      else
        match outcome with
        | .success r =>
          if r.isError && isRateLimitError r.text then
            match truthyDelay (parseResetTimeE env r.text) with
            | some d => [.schedule d]
            | none => [.schedule (intervalMs * 2)]
          else [.schedule intervalMs]
        | .thrown msg =>
          if isRateLimitError msg then
            match truthyDelay (parseResetTimeE env msg) with
            | some d => [.schedule d]
            | none => [.schedule (intervalMs * 2)]
          else [.schedule intervalMs]

/-- Apply a tick's timer-table calls to the `activeTimers` map (keyed by
channel id; `scheduleTick` clears any existing timer and stores exactly
one new entry, `delete` removes the entry). -/
def applyTimerActions (timers : String → Option Int) (ch : String) :
    List TimerAction → (String → Option Int)
  | [] => timers
  | .delete :: rest => applyTimerActions (Function.update timers ch none) ch rest
  | .schedule d :: rest => applyTimerActions (Function.update timers ch (some d)) ch rest

/-- The store effect of a tick: the only session-store writes on the tick
path are `incrementMessageCount` / `addCost` performed by the successful
run itself; a thrown run writes nothing. -/
def tickStoreEffect (s : SessionData) : RunOutcome → SessionData
  | .success r => applyRunOutcome s (.ok r)
  | .thrown _ => s

/-! ## Specification-side predicates and concrete fixtures -/

/-- None of the directive grammars matches anywhere in the text: each of
the four extraction scans produces no captures. -/
def noDirectives (l : List Char) : Prop :=
  (runScan matchCallbackAt emptyRepl l).2 = []
  ∧ (runScan matchUploadAt emptyRepl l).2 = []
  ∧ (runScan matchMdImageAt mdImageRepl l).2 = []
  ∧ (runScan matchObsidianAt emptyRepl l).2 = []

instance (l : List Char) : Decidable (noDirectives l) := by
  unfold noDirectives; infer_instance

/-- Wall-clock fixture: now is epoch 0, every timezone reports the same
calendar day, and local parsing maps hours and minutes to an offset from
epoch 0. -/
def envFix : TimeEnv where
  nowMs := 0
  todayInTz := fun _ => some (2026, 1, 1)
  localEpochMs := fun _ h m => ((h * 60 + m) * 60000 : Int)
  nowInTzMs := fun _ => some 0

/-- Session fixture with an enabled heartbeat. -/
def sessFix : SessionData where
  sessionId := "sess-1"
  messageCount := 0
  totalCostUsd := 0
  heartbeat := some ⟨true, 60000, "work"⟩

/-- A run result whose text matches the rate-limit signature and carries a
parseable reset hint, but whose error flag is not set. -/
def rlResultFix : RunResultR where
  text := "429 rate limit: resets 1pm (UTC)"
  durationMs := 0
  costUsd := 0
  isError := false
  sessionId := "sess-1"
  createdFiles := []
  imageFiles := []
  uploadFiles := []
  callbacks := []

/-- Adversarial extractor input: exactly one callback tag, one upload tag
and one local-path markdown image as counted on the raw text, but the
callback-tag removal exposes a second upload tag. -/
def advText : String := "[UPLOAD[CALLBACK: 5m: p]: /a][UPLOAD: /b]![alt](/c)"

/-- Concrete collision-free id supply standing in for `uuidv4`. -/
def genFix : Nat → String := fun n => String.mk (List.replicate (n + 1) 'u')

/-- Session fixture with prior messages and no heartbeat. -/
def sessPrior : SessionData where
  sessionId := "sid"
  messageCount := 3
  totalCostUsd := 0

/-- Fresh-context session fixture. -/
def sessFresh : SessionData where
  sessionId := "sid"
  messageCount := 0
  totalCostUsd := 2

/-- Successful run-result fixture with a positive cost. -/
def okResultFix : RunResultR where
  text := "done"
  durationMs := 10
  costUsd := (1 : Rat) / 2
  isError := false
  sessionId := "sid"
  createdFiles := []
  imageFiles := []
  uploadFiles := []
  callbacks := []

/-- Queue trace fixture: two runs on context 0 (the first of which fails)
and one on context 1. -/
def qTraceFix : List (QAct Nat Nat) :=
  [.submit 0 10, .submit 0 11, .submit 1 20,
   .start 0 10, .finish 0 false, .start 0 11, .finish 0 true,
   .start 1 20, .finish 1 true]

/-- Queue state fixture with one in-flight run and one queued run. -/
def qStateFix : QState Nat Nat where
  queued := fun _ => [11]
  inflight := fun _ => some 10

/-! ## Supporting lemmas -/

/-- One protocol A content block changes the created-files list exactly by
first-seen insertion of its observed file path, if any. -/
theorem processBlockA_createdFiles (st : AccumA) (b : ContentBlockA) :
    (processBlockA st b).createdFiles =
      (match blockFileA b with
       | some f => insertFirstSeen st.createdFiles f
       | none => st.createdFiles) := by
  cases b with
  | text t => rfl
  | otherBlock => rfl
  | toolUse name fp =>
    cases fp with
    | none =>
      by_cases hn : name = "Write" ∨ name = "Edit" <;>
        simp [processBlockA, blockFileA, hn]
    | some f =>
      by_cases hn : name = "Write" ∨ name = "Edit"
      · by_cases hf : f = ""
        · simp [processBlockA, blockFileA, hn, hf]
        · by_cases hc : f ∈ st.createdFiles <;>
            simp [processBlockA, blockFileA, insertFirstSeen, hn, hf, hc]
      · simp [processBlockA, blockFileA, hn]

/-- Folding the blocks of an assistant event accumulates exactly the
first-seen insertions of the observed file paths. -/
theorem foldl_processBlockA_createdFiles (blocks : List ContentBlockA) (st : AccumA) :
    (blocks.foldl processBlockA st).createdFiles =
      (blocks.filterMap blockFileA).foldl insertFirstSeen st.createdFiles := by
  induction blocks generalizing st with
  | nil => rfl
  | cons b bs ih =>
    rw [List.foldl_cons, ih, List.filterMap_cons]
    cases h : blockFileA b with
    | none => rw [processBlockA_createdFiles st b, h]
    | some f => rw [processBlockA_createdFiles st b, h, List.foldl_cons]

/-- A protocol A result event never touches the created-files list. -/
theorem processEventA_result_createdFiles (st : AccumA) (r : ResultEventA) :
    (processEventA st (.result r)).createdFiles = st.createdFiles := by
  simp only [processEventA]
  split <;> split <;> rfl

/-- Protocol A created-files characterisation over a whole event stream. -/
theorem foldl_processEventA_createdFiles (events : List EventA) (st : AccumA) :
    (events.foldl processEventA st).createdFiles =
      (observedFilesA events).foldl insertFirstSeen st.createdFiles := by
  induction events generalizing st with
  | nil => rfl
  | cons e es ih =>
    rw [List.foldl_cons, ih]
    cases e with
    | system sid => simp [observedFilesA, processEventA]
    | otherEvent => simp [observedFilesA, processEventA]
    | result r =>
      rw [processEventA_result_createdFiles st r]
      simp [observedFilesA]
    | assistant content =>
      have h1 : processEventA st (.assistant content) = content.foldl processBlockA st := rfl
      rw [h1, foldl_processBlockA_createdFiles]
      simp [observedFilesA, List.foldl_append]

/-- One protocol B event changes the created-files list exactly by
first-seen insertion of its observed file path, if any. -/
theorem processEventB_createdFiles (st : AccumB) (e : EventB) :
    (processEventB st e).createdFiles =
      (match itemFileB e with
       | some f => insertFirstSeen st.createdFiles f
       | none => st.createdFiles) := by
  cases e with
  | threadStarted tid => rfl
  | turnStarted => rfl
  | otherEvent => rfl
  | turnCompleted usage => cases usage <;> rfl
  | turnFailed err =>
    cases err with
    | none => rfl
    | some s => by_cases h : s = "" <;> simp [processEventB, itemFileB, h]
  | errorEvent msg => cases msg <;> rfl
  | item phase ty txt fp =>
    by_cases hp : phase = .completed ∨ phase = .updated
    · cases fp with
      | none =>
        cases txt with
        | none => simp [processEventB, itemFileB, hp]
        | some t =>
          by_cases ht : ty = "agent_message" ∧ t ≠ "" <;>
            simp [processEventB, itemFileB, hp, ht]
      | some f =>
        by_cases hf : f = ""
        · cases txt with
          | none => simp [processEventB, itemFileB, hp, hf]
          | some t =>
            by_cases ht : ty = "agent_message" ∧ t ≠ "" <;>
              simp [processEventB, itemFileB, hp, hf, ht]
        · by_cases hc : f ∈ st.createdFiles <;>
          · cases txt with
            | none => simp [processEventB, itemFileB, insertFirstSeen, hp, hf, hc]
            | some t =>
              by_cases ht : ty = "agent_message" ∧ t ≠ "" <;>
                simp [processEventB, itemFileB, insertFirstSeen, hp, hf, hc, ht]
    · cases fp with
      | none =>
        cases txt with
        | none => simp [processEventB, itemFileB, hp]
        | some t =>
          by_cases ht : ty = "agent_message" ∧ t ≠ "" <;>
            simp [processEventB, itemFileB, hp, ht]
      | some f =>
        cases txt with
        | none => simp [processEventB, itemFileB, hp]
        | some t =>
          by_cases ht : ty = "agent_message" ∧ t ≠ "" <;>
            simp [processEventB, itemFileB, hp, ht]

/-- Protocol B created-files characterisation over a whole event stream. -/
theorem foldl_processEventB_createdFiles (events : List EventB) (st : AccumB) :
    (events.foldl processEventB st).createdFiles =
      (observedFilesB events).foldl insertFirstSeen st.createdFiles := by
  induction events generalizing st with
  | nil => rfl
  | cons e es ih =>
    rw [List.foldl_cons, ih]
    simp only [observedFilesB, List.filterMap_cons]
    cases h : itemFileB e with
    | none => rw [processEventB_createdFiles st e, h]
    | some f => rw [processEventB_createdFiles st e, h, List.foldl_cons]

/-- First-seen insertion preserves distinctness. -/
theorem insertFirstSeen_nodup {acc : List String} (h : acc.Nodup) (p : String) :
    (insertFirstSeen acc p).Nodup := by
  unfold insertFirstSeen
  split
  · exact h
  · rename_i hm
    rw [List.nodup_append]
    refine ⟨h, List.nodup_singleton p, ?_⟩
    intro a ha hap
    rw [List.mem_singleton] at hap
    exact hm (hap ▸ ha)

/-- Folding first-seen insertions preserves distinctness. -/
theorem foldl_insertFirstSeen_nodup (ps : List String) (acc : List String)
    (h : acc.Nodup) : (ps.foldl insertFirstSeen acc).Nodup := by
  induction ps generalizing acc with
  | nil => exact h
  | cons p ps ih => exact ih _ (insertFirstSeen_nodup h p)

/-- Getting the last element with a default commutes with cons. -/
theorem getLastD_cons (a d : α) (l : List α) :
    ((a :: l).getLast?).getD d = (l.getLast?).getD a := by
  cases l with
  | nil => rfl
  | cons b bs =>
    rw [List.getLast?_cons_cons]
    have h : ((b :: bs).getLast?).isSome := by simp
    obtain ⟨x, hx⟩ := Option.isSome_iff_exists.mp h
    rw [hx]
    rfl

/-- The text field a block fold leaves behind is the last text block, or
the prior text when no text block occurs. -/
theorem foldl_processBlockA_text (blocks : List ContentBlockA) (st : AccumA) :
    (blocks.foldl processBlockA st).text =
      ((blocks.filterMap blockTextA).getLast?).getD st.text := by
  induction blocks generalizing st with
  | nil => rfl
  | cons b bs ih =>
    rw [List.foldl_cons, ih, List.filterMap_cons]
    cases hb : blockTextA b with
    | none =>
      have hx : (processBlockA st b).text = st.text := by
        cases b with
        | text t => simp [blockTextA] at hb
        | otherBlock => rfl
        | toolUse name fp =>
          by_cases hn : name = "Write" ∨ name = "Edit"
          · cases fp with
            | none => simp [processBlockA, hn]
            | some f =>
              by_cases hf : f ≠ "" ∧ f ∉ st.createdFiles <;>
                simp [processBlockA, hn, hf]
          · simp [processBlockA, hn]
      rw [hx]
    | some t =>
      have hx : (processBlockA st b).text = t := by
        cases b with
        | text u => simp [blockTextA] at hb; simp [processBlockA, hb]
        | otherBlock => simp [blockTextA] at hb
        | toolUse name fp => simp [blockTextA] at hb
      rw [hx, getLastD_cons]

/-- A scan that produced no captures found no match and left the text
unchanged. -/
theorem scanF_nil_captures {α : Type} (matchAt : List Char → Option (α × List Char))
    (repl : α → List Char) :
    ∀ (fuel : Nat) (l : List Char), (scanF matchAt repl fuel l).2 = [] →
      (scanF matchAt repl fuel l).1 = l := by
  intro fuel
  induction fuel with
  | zero => intro l _; rfl
  | succ fuel ih =>
    intro l h
    cases l with
    | nil => rfl
    | cons c rest =>
      cases hm : matchAt (c :: rest) with
      | some pr =>
        obtain ⟨cap, post⟩ := pr
        simp [scanF, hm] at h
      | none =>
        simp only [scanF, hm] at h ⊢
        rw [ih rest h]

/-- Form of `scanF_nil_captures` at the wrapper. -/
theorem runScan_nil_captures {α : Type} (matchAt : List Char → Option (α × List Char))
    (repl : α → List Char) (l : List Char) (h : (runScan matchAt repl l).2 = []) :
    runScan matchAt repl l = (l, []) := by
  have h1 := scanF_nil_captures matchAt repl l.length l h
  exact Prod.ext h1 h

/-- The head of a `dropWhile` result fails the predicate. -/
theorem dropWhile_head_false (p : Char → Bool) :
    ∀ (l : List Char) (a : Char) (t : List Char),
      l.dropWhile p = a :: t → p a = false := by
  intro l
  induction l with
  | nil => intro a t h; simp at h
  | cons b rest ih =>
    intro a t h
    rw [List.dropWhile_cons] at h
    by_cases hb : p b = true
    · rw [if_pos hb] at h
      exact ih a t h
    · rw [if_neg hb] at h
      obtain ⟨h1, -⟩ := List.cons_eq_cons.mp h
      subst h1
      simpa using hb

/-- A list whose head fails the predicate is unchanged by `dropWhile`. -/
theorem dropWhile_cons_false (p : Char → Bool) (a : Char) (t : List Char)
    (ha : p a = false) : (a :: t).dropWhile p = a :: t := by
  rw [List.dropWhile_cons, if_neg (by simp [ha])]

/-- Dropping a satisfied prefix twice is the same as dropping it once. -/
theorem dropWhile_idem (p : Char → Bool) (l : List Char) :
    (l.dropWhile p).dropWhile p = l.dropWhile p := by
  cases h : l.dropWhile p with
  | nil => rfl
  | cons a t => exact dropWhile_cons_false p a t (dropWhile_head_false p l a t h)

/-- JS `trim` is idempotent. -/
theorem trimChars_idem (l : List Char) : trimChars (trimChars l) = trimChars l := by
  have hdef : ∀ x : List Char, trimChars x =
      (x.reverse.dropWhile Char.isWhitespace).reverse.dropWhile Char.isWhitespace :=
    fun _ => rfl
  -- names: w is the reversed trailing-trimmed list, y the full trim
  rw [hdef l, hdef]
  have hwidem :
      ((l.reverse.dropWhile Char.isWhitespace).dropWhile Char.isWhitespace)
        = l.reverse.dropWhile Char.isWhitespace := dropWhile_idem _ _
  have hpre :
      ((l.reverse.dropWhile Char.isWhitespace).reverse.dropWhile
          Char.isWhitespace).reverse
        <+: l.reverse.dropWhile Char.isWhitespace := by
    have hsuf := List.dropWhile_suffix (l := (l.reverse.dropWhile Char.isWhitespace).reverse)
      (p := Char.isWhitespace)
    have := List.reverse_prefix.mpr hsuf
    simpa using this
  have hclaim :
      (((l.reverse.dropWhile Char.isWhitespace).reverse.dropWhile
          Char.isWhitespace).reverse).dropWhile Char.isWhitespace
        = ((l.reverse.dropWhile Char.isWhitespace).reverse.dropWhile
            Char.isWhitespace).reverse := by
    cases hyr : ((l.reverse.dropWhile Char.isWhitespace).reverse.dropWhile
        Char.isWhitespace).reverse with
    | nil => rfl
    | cons a t =>
      obtain ⟨tail, htail⟩ := hpre
      rw [hyr] at htail
      have ha : Char.isWhitespace a = false := by
        by_cases hpa : Char.isWhitespace a = true
        · exfalso
          have hw := hwidem
          rw [← htail, List.cons_append, List.dropWhile_cons, if_pos hpa] at hw
          have hlen := congrArg List.length hw
          have hle : (((t ++ tail).dropWhile Char.isWhitespace)).length
              ≤ (t ++ tail).length := (List.dropWhile_suffix _).sublist.length_le
          simp only [List.length_cons] at hlen
          omega
        · simpa using hpa
      exact dropWhile_cons_false _ a t ha
  rw [hclaim, List.reverse_reverse]
  exact dropWhile_idem _ _

/-- With no directive matches anywhere, extraction is trim only. -/
theorem extractL_no_directives (l : List Char) (h : noDirectives l) :
    extractL l = (trimChars l, [], []) := by
  obtain ⟨h1, h2, h3, h4⟩ := h
  have e1 := runScan_nil_captures matchCallbackAt emptyRepl l h1
  have e2 := runScan_nil_captures matchUploadAt emptyRepl l h2
  have e3 := runScan_nil_captures matchMdImageAt mdImageRepl l h3
  have e4 := runScan_nil_captures matchObsidianAt emptyRepl l h4
  simp [extractL, e1, e2, e3, e4]

/-- Trace projections distribute over cons. -/
theorem startsOf_cons {K R : Type} [DecidableEq K] (k : K) (a : QAct K R)
    (tr : List (QAct K R)) :
    startsOf k (a :: tr) = startsOf k [a] ++ startsOf k tr := by
  cases a with
  | start k' r => by_cases h : k' = k <;> simp [startsOf, h]
  | submit k' r => simp [startsOf]
  | finish k' ok => simp [startsOf]

theorem submitsOf_cons {K R : Type} [DecidableEq K] (k : K) (a : QAct K R)
    (tr : List (QAct K R)) :
    submitsOf k (a :: tr) = submitsOf k [a] ++ submitsOf k tr := by
  cases a with
  | submit k' r => by_cases h : k' = k <;> simp [submitsOf, h]
  | start k' r => simp [submitsOf]
  | finish k' ok => simp [submitsOf]

section QueueLemmas

variable {K R : Type} [DecidableEq K] [DecidableEq R]

/-- Single-step queue bookkeeping: one enabled action moves the submitted
requests of each key from the submit side to the start side in order. -/
theorem qApply_queued_inv (st st₂ : QState K R) (a : QAct K R)
    (h : qApply st a = some st₂) (k : K) :
    startsOf k [a] ++ st₂.queued k = st.queued k ++ submitsOf k [a] := by
  cases a with
  | submit k' r =>
    simp only [qApply, Option.some_inj] at h
    subst h
    by_cases hk : k' = k
    · subst hk
      simp [startsOf, submitsOf, Function.update_same]
    · simp [startsOf, submitsOf, hk, Function.update_noteq (Ne.symm hk)]
  | start k' r =>
    simp only [qApply] at h
    cases hin : st.inflight k' with
    | some x => simp [hin] at h
    | none =>
      cases hq : st.queued k' with
      | nil => simp [hin, hq] at h
      | cons r' rest =>
        simp only [hin, hq] at h
        split at h
        · rename_i hr
          subst hr
          rw [Option.some_inj] at h
          subst h
          by_cases hk : k' = k
          · subst hk
            simp [startsOf, submitsOf, Function.update_same, hq]
          · simp [startsOf, submitsOf, hk, Function.update_noteq (Ne.symm hk)]
        · exact absurd h (by simp)
  | finish k' ok =>
    simp only [qApply] at h
    cases hin : st.inflight k' with
    | none => simp [hin] at h
    | some x =>
      simp only [hin, Option.some_inj] at h
      subst h
      simp [startsOf, submitsOf]

/-- The run-queue invariant over whole traces. -/
theorem qRun_queued_inv :
    ∀ (tr : List (QAct K R)) (st st' : QState K R), qRun st tr = some st' →
      ∀ k, startsOf k tr ++ st'.queued k = st.queued k ++ submitsOf k tr := by
  intro tr
  induction tr with
  | nil =>
    intro st st' h k
    simp only [qRun, Option.some_inj] at h
    subst h
    simp [startsOf, submitsOf]
  | cons a rest ih =>
    intro st st' h k
    cases ha : qApply st a with
    | none => simp [qRun, ha] at h
    | some stm =>
      simp only [qRun, ha] at h
      have hrec := ih stm st' h k
      have hstep := qApply_queued_inv st stm a ha k
      rw [startsOf_cons, submitsOf_cons, List.append_assoc, hrec,
          ← List.append_assoc, hstep, List.append_assoc]

end QueueLemmas

/-! ## Claims -/

/-- C7: `parseDelay` maps `"1h30m"` to 5400000 ms, `"90s"` to 90000 ms and
the bare integer `"45"` to 2700000 ms (minutes), and returns no-match (not
zero) for unparseable input such as `"garbage"` and for zero totals such
as `"0m"`. -/
theorem c7_parseDelay_units :
    parseDelay "1h30m" = some 5400000
    ∧ parseDelay "90s" = some 90000
    ∧ parseDelay "45" = some 2700000
    ∧ parseDelay "garbage" = none
    ∧ parseDelay "0m" = none := by
  decide

/-- C8: for every event stream fed to either protocol accumulator, the
created-files list is exactly the stream of file paths observed in
write/edit-type tool invocations, deduplicated in first-seen order (hence
each path occurs at most once), and distinctness of the created-files
list is preserved by every single `processEvent` step in both variants. -/
theorem c8_createdFiles_dedup_first_seen (evA : List EventA) (evB : List EventB) :
    ((evA.foldl processEventA initA).createdFiles = firstSeenOrder (observedFilesA evA)
      ∧ ((evA.foldl processEventA initA).createdFiles).Nodup)
    ∧ ((evB.foldl processEventB initB).createdFiles = firstSeenOrder (observedFilesB evB)
      ∧ ((evB.foldl processEventB initB).createdFiles).Nodup)
    ∧ (∀ (st : AccumA) (e : EventA),
        st.createdFiles.Nodup → (processEventA st e).createdFiles.Nodup)
    ∧ (∀ (st : AccumB) (e : EventB),
        st.createdFiles.Nodup → (processEventB st e).createdFiles.Nodup) := by
  refine ⟨⟨?_, ?_⟩, ⟨?_, ?_⟩, ?_, ?_⟩
  · simpa [firstSeenOrder] using foldl_processEventA_createdFiles evA initA
  · rw [foldl_processEventA_createdFiles]
    exact foldl_insertFirstSeen_nodup _ _ List.nodup_nil
  · simpa [firstSeenOrder] using foldl_processEventB_createdFiles evB initB
  · rw [foldl_processEventB_createdFiles]
    exact foldl_insertFirstSeen_nodup _ _ List.nodup_nil
  · intro st e h
    have h1 : processEventA st e = [e].foldl processEventA st := rfl
    rw [h1, foldl_processEventA_createdFiles]
    exact foldl_insertFirstSeen_nodup _ _ h
  · intro st e h
    have h1 : processEventB st e = [e].foldl processEventB st := rfl
    rw [h1, foldl_processEventB_createdFiles]
    exact foldl_insertFirstSeen_nodup _ _ h

/-- C8 witness: the step-preservation parts of the claim theorem applied
at a concrete duplicate write and a concrete codex file event. -/
theorem c8_createdFiles_dedup_first_seen_witness :
    (processEventA
      { initA with createdFiles := ["/a.txt"] }
      (.assistant [.toolUse "Write" (some "/a.txt")])).createdFiles.Nodup
    ∧ (processEventB initB
        (.item .completed "file_change" none (some "/b.txt"))).createdFiles.Nodup := by
  constructor
  · exact (c8_createdFiles_dedup_first_seen [] []).2.2.1
      { initA with createdFiles := ["/a.txt"] }
      (.assistant [.toolUse "Write" (some "/a.txt")]) (by decide)
  · exact (c8_createdFiles_dedup_first_seen [] []).2.2.2 initB
      (.item .completed "file_change" none (some "/b.txt")) (by decide)

/-- C9 counterexample: the protocol B accumulator does not append
incremental deltas — feeding two agent-message items with texts `"ab"` and
`"cd"` leaves `"cd"`, not `"abcd"`. -/
theorem c9_counterexample_codex_overwrites :
    ([EventB.item .completed "agent_message" (some "ab") none,
      EventB.item .completed "agent_message" (some "cd") none].foldl
        processEventB initB).text = "cd"
    ∧ ("cd" : String) ≠ "ab" ++ "cd" := by
  constructor
  · rfl
  · decide

/-- C9 (amended): both accumulators rewrite their latest-text value
wholesale — protocol A installs the last text block of each assistant
turn (falling back to the previous text when the turn has none), and
protocol B replaces the text with each nonempty agent-message item text
rather than appending it. -/
theorem c9_amended_wholesale_rewrite :
    (∀ (st : AccumA) (blocks : List ContentBlockA),
        (processEventA st (.assistant blocks)).text =
          ((blocks.filterMap blockTextA).getLast?).getD st.text)
    ∧ (∀ (st : AccumB) (phase : ItemPhase) (t : String) (fp : Option String),
        (phase = .completed ∨ phase = .updated) → t ≠ "" →
        (processEventB st (.item phase "agent_message" (some t) fp)).text = t) := by
  constructor
  · intro st blocks
    exact foldl_processBlockA_text blocks st
  · intro st phase t fp hp ht
    cases fp with
    | none => simp [processEventB, hp, ht]
    | some f =>
      by_cases hf : f ≠ "" ∧ f ∉ st.createdFiles <;>
        simp [processEventB, hp, ht, hf]

/-- C9 witness: the amended theorem applied at two concrete turns. -/
theorem c9_amended_wholesale_rewrite_witness :
    (processEventA initA (.assistant [.text "x", .text "y"])).text = "y"
    ∧ (processEventB initB
        (.item .completed "agent_message" (some "hi") none)).text = "hi" := by
  constructor
  · have h := c9_amended_wholesale_rewrite.1 initA [.text "x", .text "y"]
    simpa using h
  · exact c9_amended_wholesale_rewrite.2 initB .completed "hi" none
      (Or.inl rfl) (by decide)

/-- C5: on subprocess exit, a recorded terminal error makes the run
resolve (not reject) as an error result whose text is the error message,
regardless of exit code; a nonzero exit code with no accumulated text and
no terminal error makes the promise reject; otherwise the run resolves
with the extractor-cleaned text and the extracted directives — in both
backend variants. -/
theorem c5_close_semantics (opt : String) (err : Option String)
    (result : Option ResultEventA) (tid : Option String) (accText : String)
    (code : Int) (cf imf : List String) :
    (strTruthy err = true →
      (∃ r, closeClaude opt err result accText code cf imf = .ok r
            ∧ r.isError = true ∧ r.text = err.getD "")
      ∧ (∃ r, closeCodex opt err tid accText code cf imf = .ok r
            ∧ r.isError = true ∧ r.text = err.getD ""))
    ∧ (strTruthy err = false → code ≠ 0 → accText = "" →
        closeClaude opt err result accText code cf imf
          = .error ("Claude CLI exited with code " ++ toString code)
        ∧ closeCodex opt err tid accText code cf imf
          = .error ("Codex CLI exited with code " ++ toString code))
    ∧ (strTruthy err = false → ¬(code ≠ 0 ∧ accText = "") →
        (∃ r, closeClaude opt err result accText code cf imf = .ok r
          ∧ r.text = (extractResponseTags accText).1
          ∧ r.uploadFiles = (extractResponseTags accText).2.1
          ∧ r.callbacks = (extractResponseTags accText).2.2)
        ∧ (∃ r, closeCodex opt err tid accText code cf imf = .ok r
          ∧ r.text = (extractResponseTags accText).1
          ∧ r.uploadFiles = (extractResponseTags accText).2.1
          ∧ r.callbacks = (extractResponseTags accText).2.2)) := by
  refine ⟨?_, ?_, ?_⟩
  · intro h
    constructor
    · unfold closeClaude
      rw [if_pos (by simp [h])]
      exact ⟨_, rfl, rfl, rfl⟩
    · unfold closeCodex
      rw [if_pos (by simp [h])]
      exact ⟨_, rfl, rfl, rfl⟩
  · intro h1 h2 h3
    constructor
    · unfold closeClaude
      rw [if_neg (by simp [h1]), if_pos ⟨h2, h3⟩]
    · unfold closeCodex
      rw [if_neg (by simp [h1]), if_pos ⟨h2, h3⟩]
  · intro h1 h23
    constructor
    · unfold closeClaude
      rw [if_neg (by simp [h1]), if_neg h23]
      exact ⟨_, rfl, rfl, rfl, rfl⟩
    · unfold closeCodex
      rw [if_neg (by simp [h1]), if_neg h23]
      exact ⟨_, rfl, rfl, rfl, rfl⟩

/-- C5 witness: the claim theorem applied at a terminal error, at an
infrastructure failure, and at a successful exit with one directive. -/
theorem c5_close_semantics_witness :
    (∃ r, closeClaude "s" (some "boom") none "" 0 [] [] = .ok r
          ∧ r.isError = true ∧ r.text = "boom")
    ∧ closeClaude "s" none none "" 3 [] []
        = .error ("Claude CLI exited with code " ++ toString (3 : Int))
    ∧ (∃ r, closeCodex "s" none none "hi [UPLOAD: /a]" 0 [] [] = .ok r
          ∧ r.text = (extractResponseTags "hi [UPLOAD: /a]").1
          ∧ r.uploadFiles = (extractResponseTags "hi [UPLOAD: /a]").2.1
          ∧ r.callbacks = (extractResponseTags "hi [UPLOAD: /a]").2.2) := by
  refine ⟨?_, ?_, ?_⟩
  · exact ((c5_close_semantics "s" (some "boom") none none "" 0 [] []).1
      (by decide)).1
  · exact ((c5_close_semantics "s" none none none "" 3 [] []).2.1
      (by decide) (by decide) rfl).1
  · exact ((c5_close_semantics "s" none none none "hi [UPLOAD: /a]" 0 [] []).2.2
      (by decide) (by simp)).2

/-- C2: a non-autonomous request with continuation flag false on a context
whose stored message count is positive is still dispatched in continuation
mode with the stored session id; an autonomous request is dispatched with
continuation off under the freshly drawn session id, which differs from
the stored session id and from the id of any other autonomous draw. -/
theorem c2_continuation_and_fresh_sessions (session : SessionData)
    (gen : Nat → String) (hinj : Function.Injective gen)
    (hstored : ∀ n, gen n ≠ session.sessionId) (hne : ∀ n, gen n ≠ "") :
    (∀ fid : String, session.messageCount > 0 →
      resolveDispatch session false false fid = (session.sessionId, true))
    ∧ (∀ (c : Bool) (n : Nat),
        resolveDispatch session c true (gen n) = (gen n, false))
    ∧ (∀ (c : Bool) (n : Nat),
        (resolveDispatch session c true (gen n)).1 ≠ session.sessionId)
    ∧ (∀ (c c' : Bool) (n m : Nat), n ≠ m →
        (resolveDispatch session c true (gen n)).1
          ≠ (resolveDispatch session c' true (gen m)).1) := by
  have hres : ∀ (c : Bool) (n : Nat),
      resolveDispatch session c true (gen n) = (gen n, false) := by
    intro c n
    simp [resolveDispatch, jsOrStr, hne n]
  refine ⟨?_, hres, ?_, ?_⟩
  · intro fid h
    simp [resolveDispatch, jsOrStr, h]
  · intro c n
    rw [hres]
    exact hstored n
  · intro c c' n m hnm
    rw [hres, hres]
    exact fun hcontra => hnm (hinj hcontra)

/-- C2 witness: the claim theorem applied to a concrete session and the
concrete replicate-based id supply. -/
theorem c2_continuation_and_fresh_sessions_witness :
    resolveDispatch sessPrior false false "ignored" = ("sid", true)
    ∧ resolveDispatch sessPrior false true (genFix 1) = (genFix 1, false)
    ∧ (resolveDispatch sessPrior false true (genFix 1)).1 ≠ sessPrior.sessionId
    ∧ (resolveDispatch sessPrior false true (genFix 1)).1
        ≠ (resolveDispatch sessPrior true true (genFix 2)).1 := by
  have hinj : Function.Injective genFix := by
    intro a b h
    have hd := congrArg String.data h
    simp only [genFix] at hd
    have := congrArg List.length hd
    simpa using this
  have hstored : ∀ n, genFix n ≠ sessPrior.sessionId := by
    intro n h
    have hd := congrArg String.data h
    simp only [genFix, sessPrior, List.replicate_succ] at hd
    obtain ⟨h1, -⟩ := List.cons_eq_cons.mp hd
    exact absurd h1 (by decide)
  have hne : ∀ n, genFix n ≠ "" := by
    intro n h
    have hd := congrArg String.data h
    simp [genFix, List.replicate_succ] at hd
  have h := c2_continuation_and_fresh_sessions sessPrior genFix hinj hstored hne
  exact ⟨h.1 "ignored" (by decide), h.2.1 false 1, h.2.2.1 false 1,
         h.2.2.2 false true 1 2 (by decide)⟩

/-- C10: every successfully resolving run increments the persisted message
count by one (autonomous runs included, since the update is on the common
dispatch path), updates the accumulated cost only when the cost is
strictly positive, and therefore any later non-autonomous run on that
context is dispatched in continuation mode even with its continuation
flag false. -/
theorem c10_count_increment_and_continuation (s : SessionData) (r : RunResultR) :
    (applyRunOutcome s (.ok r)).messageCount = s.messageCount + 1
    ∧ (applyRunOutcome s (.ok r)).sessionId = s.sessionId
    ∧ (applyRunOutcome s (.ok r)).heartbeat = s.heartbeat
    ∧ (r.costUsd > 0 →
        (applyRunOutcome s (.ok r)).totalCostUsd = s.totalCostUsd + r.costUsd)
    ∧ (¬ r.costUsd > 0 →
        (applyRunOutcome s (.ok r)).totalCostUsd = s.totalCostUsd)
    ∧ (∀ fid : String,
        resolveDispatch (applyRunOutcome s (.ok r)) false false fid
          = (s.sessionId, true)) := by
  by_cases hc : r.costUsd > 0
  · refine ⟨by simp [applyRunOutcome, incrementMessageCount, addCost, hc],
            by simp [applyRunOutcome, incrementMessageCount, addCost, hc],
            by simp [applyRunOutcome, incrementMessageCount, addCost, hc],
            fun _ => by simp [applyRunOutcome, incrementMessageCount, addCost, hc],
            fun h => absurd hc h, ?_⟩
    intro fid
    simp [resolveDispatch, jsOrStr, applyRunOutcome, incrementMessageCount, addCost, hc]
  · refine ⟨by simp [applyRunOutcome, incrementMessageCount, hc],
            by simp [applyRunOutcome, incrementMessageCount, hc],
            by simp [applyRunOutcome, incrementMessageCount, hc],
            fun h => absurd h hc,
            fun _ => by simp [applyRunOutcome, incrementMessageCount, hc], ?_⟩
    intro fid
    simp [resolveDispatch, jsOrStr, applyRunOutcome, incrementMessageCount, hc]

/-- C1: in the per-context promise-chain queue, every key dispatches its
submitted requests strictly in submission order (the started requests are
always a prefix of the submitted ones, the rest still being queued); after
a run settles as a failure the next queued run for that key is immediately
dispatchable, because settling clears the in-flight slot regardless of the
outcome; and an action on one key never changes the queue or in-flight
state of another key. -/
theorem c1_fifo_order_and_failure_isolation :
    ∀ {K R : Type} [DecidableEq K] [DecidableEq R],
      (∀ (tr : List (QAct K R)) (st : QState K R), qRun qInit tr = some st →
        ∀ k, submitsOf k tr = startsOf k tr ++ st.queued k)
      ∧ (∀ (st st' : QState K R) (k : K) (r : R) (rest : List R),
          qApply st (.finish k false) = some st' → st'.queued k = r :: rest →
          (qApply st' (.start k r)).isSome = true)
      ∧ (∀ (st st' : QState K R) (a : QAct K R) (k' : K), a.key ≠ k' →
          qApply st a = some st' →
          st'.queued k' = st.queued k' ∧ st'.inflight k' = st.inflight k') := by
  intro K R instK instR
  refine ⟨?_, ?_, ?_⟩
  · intro tr st h k
    have hinv := qRun_queued_inv tr qInit st h k
    simpa [qInit] using hinv.symm
  · intro st st' k r rest h hq
    simp only [qApply] at h
    cases hin : st.inflight k with
    | none => simp [hin] at h
    | some x =>
      simp only [hin, Option.some_inj] at h
      subst h
      simp only [qApply, Function.update_same]
      rw [hq]
      simp
  · intro st st' a k' hne h
    cases a with
    | submit k r =>
      simp only [qApply, Option.some_inj] at h
      subst h
      simp only [QAct.key] at hne
      exact ⟨Function.update_noteq (Ne.symm hne) _ _, rfl⟩
    | start k r =>
      simp only [qApply] at h
      cases hin : st.inflight k with
      | some x => simp [hin] at h
      | none =>
        cases hq : st.queued k with
        | nil => simp [hin, hq] at h
        | cons r' rest =>
          simp only [hin, hq] at h
          split at h
          · rw [Option.some_inj] at h
            subst h
            simp only [QAct.key] at hne
            exact ⟨Function.update_noteq (Ne.symm hne) _ _,
                   Function.update_noteq (Ne.symm hne) _ _⟩
          · exact absurd h (by simp)
    | finish k ok =>
      simp only [qApply] at h
      cases hin : st.inflight k with
      | none => simp [hin] at h
      | some x =>
        simp only [hin, Option.some_inj] at h
        subst h
        simp only [QAct.key] at hne
        exact ⟨rfl, Function.update_noteq (Ne.symm hne) _ _⟩

/-- C1 witness: the claim theorem applied to a concrete trace with a
failing first run, and to concrete one-step states. -/
theorem c1_fifo_order_and_failure_isolation_witness :
    (∃ st, qRun qInit qTraceFix = some st
      ∧ submitsOf 0 qTraceFix = startsOf 0 qTraceFix ++ st.queued 0)
    ∧ (∃ st', qApply qStateFix (QAct.finish 0 false) = some st'
      ∧ (qApply st' (.start 0 11)).isSome = true)
    ∧ (∃ st', qApply qStateFix (QAct.submit 0 5) = some st'
      ∧ st'.queued 1 = qStateFix.queued 1
      ∧ st'.inflight 1 = qStateFix.inflight 1) := by
  refine ⟨⟨_, rfl, ?_⟩, ⟨_, rfl, ?_⟩, ⟨_, rfl, ?_⟩⟩
  · exact (@c1_fifo_order_and_failure_isolation Nat Nat _ _).1 qTraceFix _ rfl 0
  · exact (@c1_fifo_order_and_failure_isolation Nat Nat _ _).2.1
      qStateFix _ 0 11 [] rfl rfl
  · exact (@c1_fifo_order_and_failure_isolation Nat Nat _ _).2.2
      qStateFix _ (.submit 0 5) 1 (by decide) rfl

/-- C3 counterexample: a heartbeat tick whose result text matches the
rate-limit signature and carries a parseable reset hint, but whose error
flag is not set, is rescheduled for the default interval rather than the
parsed reset delay — the code additionally requires `result.isError`. -/
theorem c3_counterexample_non_error_result :
    isRateLimitError rlResultFix.text = true
    ∧ (∃ d, parseResetTimeE envFix rlResultFix.text = some d ∧ d ≠ 0 ∧ d ≠ 60000)
    ∧ tickActions envFix (some sessFix) true 60000 (.success rlResultFix)
        = [.schedule 60000] := by
  exact ⟨by decide, ⟨46920000, by decide, by decide, by decide⟩, by decide⟩

/-- C3 (amended): when a heartbeat tick resolves to an error result whose
text matches a rate-limit signature, or its run throws an error whose
message matches one, the scheduler arms its next timer for the parsed
reset delay — the wall-clock gap to the hinted time plus the fixed
two-minute buffer — when such a hint parses (and is nonzero), and for
exactly twice the configured interval when no hint parses; in either case
the tick reschedules (a single `schedule` action) instead of failing. -/
theorem c3_rate_limit_backoff (env : TimeEnv) (s : SessionData)
    (hb : HeartbeatConfig) (iv : Int) (r : RunResultR) (msg : String)
    (hhb : s.heartbeat = some hb) (hen : hb.enabled = true)
    (hpr : hb.prompt ≠ "") :
    (r.isError = true → isRateLimitError r.text = true →
      (∀ d, parseResetTimeE env r.text = some d → d ≠ 0 →
        tickActions env (some s) true iv (.success r) = [.schedule d]
        ∧ ∃ gap, resetDelayRaw env r.text = some gap ∧ d = gap + 2 * 60 * 1000)
      ∧ (parseResetTimeE env r.text = none →
        tickActions env (some s) true iv (.success r) = [.schedule (iv * 2)]))
    ∧ (isRateLimitError msg = true →
      (∀ d, parseResetTimeE env msg = some d → d ≠ 0 →
        tickActions env (some s) true iv (.thrown msg) = [.schedule d]
        ∧ ∃ gap, resetDelayRaw env msg = some gap ∧ d = gap + 2 * 60 * 1000)
      ∧ (parseResetTimeE env msg = none →
        tickActions env (some s) true iv (.thrown msg) = [.schedule (iv * 2)])) := by
  constructor
  · intro hie hrl
    constructor
    · intro d hd hdne
      constructor
      · simp [tickActions, hhb, hen, hpr, hie, hrl, hd, truthyDelay, hdne]
      · obtain ⟨gap, hg, hge⟩ := Option.map_eq_some'.mp hd
        exact ⟨gap, hg, hge.symm⟩
    · intro hd
      simp [tickActions, hhb, hen, hpr, hie, hrl, hd, truthyDelay]
  · intro hrl
    constructor
    · intro d hd hdne
      constructor
      · simp [tickActions, hhb, hen, hpr, hrl, hd, truthyDelay, hdne]
      · obtain ⟨gap, hg, hge⟩ := Option.map_eq_some'.mp hd
        exact ⟨gap, hg, hge.symm⟩
    · intro hd
      simp [tickActions, hhb, hen, hpr, hrl, hd, truthyDelay]

/-- C3 witness: the amended theorem applied to a concrete error result
with a parseable hint and to a concrete thrown message with none. -/
theorem c3_rate_limit_backoff_witness :
    tickActions envFix (some sessFix) true 60000
      (.success { rlResultFix with isError := true }) = [.schedule 46920000]
    ∧ tickActions envFix (some sessFix) true 60000
        (.thrown "quota exceeded for now") = [.schedule (60000 * 2)] := by
  have h := c3_rate_limit_backoff envFix sessFix ⟨true, 60000, "work"⟩ 60000
    { rlResultFix with isError := true } "quota exceeded for now"
    rfl rfl (by decide)
  exact ⟨((h.1 rfl (by decide)).1 46920000 (by decide) (by decide)).1,
         (h.2 (by decide)).2 (by decide)⟩

/-- C4: a heartbeat tick whose run throws a non-rate-limit exception is
caught and still arms exactly one new timer for the configured interval
(the timer table afterwards holds exactly that one fresh entry for the
channel, all other channels untouched), and the persisted heartbeat
configuration of the Context is left unchanged by the tick. -/
theorem c4_self_healing_tick (env : TimeEnv) (s : SessionData)
    (hb : HeartbeatConfig) (iv : Int) (msg : String)
    (timers : String → Option Int) (ch : String)
    (hhb : s.heartbeat = some hb) (hen : hb.enabled = true)
    (hpr : hb.prompt ≠ "") (hrl : isRateLimitError msg = false) :
    tickActions env (some s) true iv (.thrown msg) = [.schedule iv]
    ∧ applyTimerActions timers ch
        (tickActions env (some s) true iv (.thrown msg)) ch = some iv
    ∧ (∀ ch', ch' ≠ ch →
        applyTimerActions timers ch
          (tickActions env (some s) true iv (.thrown msg)) ch' = timers ch')
    ∧ (∀ o, (tickStoreEffect s o).heartbeat = s.heartbeat) := by
  have h1 : tickActions env (some s) true iv (.thrown msg) = [.schedule iv] := by
    simp [tickActions, hhb, hen, hpr, hrl]
  refine ⟨h1, ?_, ?_, ?_⟩
  · rw [h1]
    simp [applyTimerActions, Function.update_same]
  · intro ch' hne
    rw [h1]
    simp [applyTimerActions, Function.update_noteq hne]
  · intro o
    cases o with
    | thrown m => rfl
    | success r =>
      by_cases hc : r.costUsd > 0 <;>
        simp [tickStoreEffect, applyRunOutcome, incrementMessageCount, addCost, hc]

/-- C4 witness: the claim theorem applied to a concrete tick whose run
throws a non-rate-limit error. -/
theorem c4_self_healing_tick_witness :
    tickActions envFix (some sessFix) true 60000 (.thrown "disk full")
      = [.schedule 60000]
    ∧ applyTimerActions (fun _ => none) "chan"
        (tickActions envFix (some sessFix) true 60000 (.thrown "disk full")) "chan"
        = some 60000
    ∧ (tickStoreEffect sessFix (.thrown "disk full")).heartbeat = sessFix.heartbeat := by
  have h := c4_self_healing_tick envFix sessFix ⟨true, 60000, "work"⟩ 60000
    "disk full" (fun _ => none) "chan" rfl rfl (by decide) (by decide)
  exact ⟨h.1, h.2.1, h.2.2.2 _⟩

/-- C10 witness: the claim theorem applied to a fresh context and a
successful autonomous run with positive cost. -/
theorem c10_count_increment_and_continuation_witness :
    (applyRunOutcome sessFresh (.ok okResultFix)).messageCount = 1
    ∧ (applyRunOutcome sessFresh (.ok okResultFix)).totalCostUsd = 2 + (1 : Rat) / 2
    ∧ resolveDispatch (applyRunOutcome sessFresh (.ok okResultFix)) false false "x"
        = ("sid", true) := by
  have h := c10_count_increment_and_continuation sessFresh okResultFix
  refine ⟨h.1, ?_, h.2.2.2.2.2 "x"⟩
  have hpos : okResultFix.costUsd > 0 := by norm_num [okResultFix]
  have := h.2.2.2.1 hpos
  simpa [sessFresh, okResultFix] using this

/-- C6 counterexample: the input `advText` contains exactly one callback
tag, one upload tag and one local-path markdown image (each grammar
matches exactly once on the raw text, and the Obsidian grammar not at
all), yet `extractResponseTags` returns three upload paths, not two: the
removal of the callback tag exposes a second upload tag to the later
pass. -/
theorem c6_counterexample_new_match_after_removal :
    (runScan matchCallbackAt emptyRepl advText.data).2.length = 1
    ∧ (runScan matchUploadAt emptyRepl advText.data).2.length = 1
    ∧ (runScan matchMdImageAt mdImageRepl advText.data).2.length = 1
    ∧ (runScan matchObsidianAt emptyRepl advText.data).2.length = 0
    ∧ (extractResponseTags advText).2.1.length = 3 := by
  decide

/-- C6 (amended): when the four passes, run in their source order on the
successively rewritten text, find exactly one callback tag with a
parseable delay, then exactly one upload tag, then exactly one local-path
image embed and no Obsidian embed, extraction returns the trimmed fully
rewritten text, the upload-tag path followed by the image path, and the
single parsed callback; if the resulting clean text contains no directive
grammar, re-running the extractor on it is a no-op.  Unconditionally, any
text with no directive matches extracts to its trim with empty lists. -/
theorem c6_directive_round_trip :
    (∀ (text t1 t2 t3 t4 d p u alt ipath : List Char) (ms : Nat),
      runScan matchCallbackAt emptyRepl text = (t1, [(d, p)]) →
      parseDelayL d = some ms →
      runScan matchUploadAt emptyRepl t1 = (t2, [u]) →
      runScan matchMdImageAt mdImageRepl t2 = (t3, [(alt, ipath)]) →
      runScan matchObsidianAt emptyRepl t3 = (t4, []) →
      extractL text = (trimChars t4, [u, ipath], [⟨ms, String.mk (trimChars p)⟩])
      ∧ (noDirectives (trimChars t4) →
          extractL (trimChars t4) = (trimChars t4, [], [])))
    ∧ (∀ l, noDirectives l → extractL l = (trimChars l, [], [])) := by
  refine ⟨?_, extractL_no_directives⟩
  intro text t1 t2 t3 t4 d p u alt ipath ms h1 hp h2 h3 h4
  constructor
  · simp [extractL, h1, h2, h3, h4, hp]
  · intro h
    rw [extractL_no_directives _ h, trimChars_idem]

/-- C6 witness: the amended theorem applied to a concrete response
carrying one directive of each kind. -/
theorem c6_directive_round_trip_witness :
    extractL "a [CALLBACK: 2m: go] b [UPLOAD: /f.txt] c ![x](/i.png) d".data
      = (trimChars "a  b  c *x* d".data,
         ["/f.txt".data, "/i.png".data],
         [⟨120000, String.mk (trimChars "go".data)⟩])
    ∧ extractL (trimChars "a  b  c *x* d".data)
      = (trimChars "a  b  c *x* d".data, [], []) := by
  have h := c6_directive_round_trip.1
    "a [CALLBACK: 2m: go] b [UPLOAD: /f.txt] c ![x](/i.png) d".data
    "a  b [UPLOAD: /f.txt] c ![x](/i.png) d".data
    "a  b  c ![x](/i.png) d".data
    "a  b  c *x* d".data
    "a  b  c *x* d".data
    "2m".data "go".data "/f.txt".data "x".data "/i.png".data 120000
    (by decide) (by decide) (by decide) (by decide) (by decide)
  exact ⟨h.1, h.2 (by decide)⟩

end Maya
